import Mathlib

/-!
Verification of the command-history browser and statusbar text widgets of
qutebrowser's statusbar module (qutebrowser/widgets/statusbar.py).

The `Command` line edit keeps
  * `history`  : the command history (class-level list, newer at the tail),
  * `_tmphist` : the filtered view used while browsing,
  * `_histpos` : the browse cursor (`None` when not browsing, an int index
                 otherwise),
  * the current line-edit text.

We embed this as a state record plus one Lean function per Python handler,
and a small labelled transition system (`applyOp`/`runOps`) over the user
events that drive them: text edits (which fire `textEdited` and therefore
`_histbrowse_stop`), Return (`process_cmdline`), Up (`key_up_handler`),
Down (`key_down_handler`), and `_histbrowse_stop` itself (fired on focus
out as well).

Python exceptions (the `IndexError` of an out-of-range list access, the
`text[0]` access in `process_cmdline`) are made observable through a
`crashed` flag; Python's negative-index semantics is embedded in `pyIndex`.

A note on aliasing: in the source, `self._tmphist = self.history` (the empty
sieve case of `_histbrowse_start`) aliases the class-level history list, so a
later `history.append` also mutates `_tmphist`.  This is unobservable for the
modelled events: `history` is only appended to by `process_cmdline`, which
first stops browsing, and `_tmphist` is never read again before the next
`_histbrowse_start` recomputes it (Up restarts browsing when the cursor is
`None`; Down returns immediately).  We therefore model `_tmphist` with value
semantics.
-/

namespace Statusbar

/-- Python `str.strip()`: remove whitespace from both ends of the string
(character-list implementation, so that it computes by kernel reduction). -/
def pyStrip (s : String) : String :=
  ⟨((s.data.dropWhile Char.isWhitespace).reverse.dropWhile Char.isWhitespace).reverse⟩

/-- Python `str.startswith(pre)` (character-list implementation, so that it
computes by kernel reduction). -/
def pyStartsWith (s pre : String) : Bool :=
  pre.data.isPrefixOf s.data

/-- Python list indexing `xs[i]` for `i : Int`: a negative index counts from
the end; an out-of-range access yields `none` (an `IndexError` in Python). -/
def pyIndex (xs : List String) (i : Int) : Option String :=
  if i < 0 then
    if 0 ≤ i + (xs.length : Int) then xs.get? (i + (xs.length : Int)).toNat
    else none
  else xs.get? i.toNat

/-- The state of the `Command` line edit: the class attributes `history`,
`_tmphist`, `_histpos` plus the current text of the `QLineEdit` and a flag
recording whether an uncaught Python exception was raised. -/
structure CmdState where
  history : List String
  tmphist : List String
  histpos : Option Int
  text : String
  crashed : Bool
deriving DecidableEq, Repr

/-- The initial state: empty class-level `history` and `_tmphist`,
`_histpos = None`, empty line edit. -/
def initState : CmdState :=
  { history := [], tmphist := [], histpos := none, text := "", crashed := false }

/-- `Command.set_cmd`: presets the line edit to some text (the focus change
is outside the model).  A programmatic `setText` does not fire `textEdited`,
so it does not stop browsing. -/
def set_cmd (s : CmdState) (text : String) : CmdState :=
  { s with text := text }

/-- `Command._histbrowse_start`: `pre = self.text().strip()`; `_tmphist`
becomes the entries of `history` starting with `pre` if `pre` is non-empty
(truthy), else all of `history`; `_histpos = len(_tmphist) - 1`. -/
def histbrowse_start (s : CmdState) : CmdState :=
  let pre := pyStrip s.text
  let tmp := if pre ≠ "" then s.history.filter (fun e => pyStartsWith e pre)
             else s.history
  { s with tmphist := tmp, histpos := some ((tmp.length : Int) - 1) }

/-- `Command._histbrowse_stop`: `_histpos = None`. -/
def histbrowse_stop (s : CmdState) : CmdState :=
  { s with histpos := none }

/-- The tail of `Command.key_up_handler` after the `_histpos` dispatch:
`if not self._tmphist: return` and then
`self.set_cmd(self._tmphist[self._histpos])`.  The `none` cursor case would
be a `TypeError` in Python (indexing a list with `None`); it is unreachable
from the handler. -/
def keyup_display (s : CmdState) : CmdState :=
  if s.tmphist = [] then s
  else
    match s.histpos with
    | none => { s with crashed := true }
    | some p =>
      match pyIndex s.tmphist p with
      | some e => set_cmd s e
      | none => { s with crashed := true }

/-- `Command.key_up_handler`: if `_histpos is None`, start browsing; else if
`_histpos <= 0`, return; else decrement `_histpos`; then display
`_tmphist[_histpos]` unless `_tmphist` is empty. -/
def key_up_handler (s : CmdState) : CmdState :=
  match s.histpos with
  | none => keyup_display (histbrowse_start s)
  | some p =>
    if p ≤ 0 then s
    else keyup_display { s with histpos := some (p - 1) }

/-- `Command.key_down_handler`: return if `_histpos is None`, or
`_histpos >= len(_tmphist) - 1`, or `_tmphist` is empty; else increment
`_histpos` and display `_tmphist[_histpos]`. -/
def key_down_handler (s : CmdState) : CmdState :=
  match s.histpos with
  | none => s
  | some p =>
    if p ≥ (s.tmphist.length : Int) - 1 ∨ s.tmphist = [] then s
    else
      match pyIndex s.tmphist (p + 1) with
      | some e => set_cmd { s with histpos := some (p + 1) } e
      | none => { s with histpos := some (p + 1), crashed := true }

/-- The append guard of `Command.process_cmdline`:
`if not self.history or text != self.history[-1]` (short-circuit: the last
element is only read when the list is non-empty). -/
def shouldAppend (history : List String) (text : String) : Bool :=
  match history.getLast? with
  | none => true
  | some l => text != l

/-- `Command.process_cmdline`: stop browsing, read the text, append it to
`history` unless it repeats the last entry, clear the line edit, then
dispatch on `text[0]` — which raises `IndexError` when `text` is empty.
The signal emissions themselves are outside the model. -/
def process_cmdline (s : CmdState) : CmdState :=
  let s0 := histbrowse_stop s
  let text := s0.text
  let s1 := if shouldAppend s0.history text
            then { s0 with history := s0.history ++ [text] }
            else s0
  let s2 := { s1 with text := "" }
  match text.data with
  | [] => { s2 with crashed := true }
  | _ :: _ => s2

/-- The user events that drive the `Command` widget:
`edit t` is the user editing the line edit to `t` (fires `textEdited`, whose
only connected slot is `_histbrowse_stop`); `ret` is Return
(`process_cmdline`); `keyUp`/`keyDown` are the Up/Down shortcuts; `stop` is
`_histbrowse_stop` (fired alone on focus out). -/
inductive Op where
  | edit (t : String)
  | ret
  | keyUp
  | keyDown
  | stop
deriving DecidableEq, Repr

/-- One event step.  A crashed state is absorbing: after an uncaught
exception the handler chain is dead. -/
def applyOp (s : CmdState) (op : Op) : CmdState :=
  if s.crashed then s
  else
    match op with
    | .edit t => histbrowse_stop { s with text := t }
    | .ret => process_cmdline s
    | .keyUp => key_up_handler s
    | .keyDown => key_down_handler s
    | .stop => histbrowse_stop s

/-- Run a sequence of user events from the initial state. -/
def runOps (ops : List Op) : CmdState :=
  ops.foldl applyOp initState

/-- A state is reachable when some sequence of user events produces it. -/
def Reaches (s : CmdState) : Prop :=
  ∃ ops : List Op, runOps ops = s

/-- The filtered history exactly as the spec words it: all log entries whose
text starts with the trimmed current input, in original order, when the
trimmed input is non-empty; the entire log otherwise. -/
def specFiltered (log : List String) (input : String) : List String :=
  let t := pyStrip input
  if t = "" then log else log.filter (fun e => pyStartsWith e t)

/-! ### The validator -/

/-- The three `QValidator::State` values of Qt. -/
inductive QValidatorState where
  | Acceptable
  | Intermediate
  | Invalid
deriving DecidableEq, Repr

/-- `CommandValidator.validate`: `(Acceptable, string, pos)` when the string
starts with one of the permitted start characters, `(Invalid, string, pos)`
otherwise.  The permitted characters come from `qutebrowser.commands.keys`
(`keys.startchars`), a module not part of this source file, so the set is a
parameter here. -/
def validate (startchars : List String) (string : String) (pos : Nat) :
    QValidatorState × String × Nat :=
  if startchars.any (fun c => pyStartsWith string c) then
    (QValidatorState.Acceptable, string, pos)
  else
    (QValidatorState.Invalid, string, pos)

/-! ### The statusbar `Text` widget -/

/-- The state of the statusbar `Text` label: the displayed `QLabel` text and
the `old_text` attribute. -/
structure TextWidget where
  text : String
  old_text : String
deriving DecidableEq, Repr

/-- `Text.set_error`: save the current text in `old_text`, display `text`. -/
def set_error (w : TextWidget) (text : String) : TextWidget :=
  { w with old_text := w.text, text := text }

/-- `Text.clear_error`: restore the saved `old_text`. -/
def clear_error (w : TextWidget) : TextWidget :=
  { w with text := w.old_text }

/-! ### Basic lemmas about the handlers -/

lemma pyIndex_of_nonneg (xs : List String) (p : Int) (h0 : 0 ≤ p) :
    pyIndex xs p = xs.get? p.toNat := by
  unfold pyIndex
  rw [if_neg (by omega)]

lemma pyIndex_isSome (xs : List String) (p : Int) (h0 : 0 ≤ p)
    (h1 : p < (xs.length : Int)) : ∃ e, pyIndex xs p = some e := by
  rw [pyIndex_of_nonneg xs p h0]
  have h2 : p.toNat < xs.length := by omega
  exact ⟨xs.get ⟨p.toNat, h2⟩, List.get?_eq_get h2⟩

lemma histbrowse_start_tmphist (s : CmdState) :
    (histbrowse_start s).tmphist = specFiltered s.history s.text := by
  unfold histbrowse_start specFiltered
  by_cases h : pyStrip s.text = "" <;> simp [h]

lemma histbrowse_start_histpos (s : CmdState) :
    (histbrowse_start s).histpos =
      some (((histbrowse_start s).tmphist.length : Int) - 1) := rfl

lemma histbrowse_start_history (s : CmdState) :
    (histbrowse_start s).history = s.history := rfl

lemma histbrowse_start_text (s : CmdState) :
    (histbrowse_start s).text = s.text := rfl

lemma histbrowse_start_crashed (s : CmdState) :
    (histbrowse_start s).crashed = s.crashed := rfl

lemma keyup_display_fields (s : CmdState) :
    (keyup_display s).history = s.history ∧
    (keyup_display s).tmphist = s.tmphist ∧
    (keyup_display s).histpos = s.histpos := by
  unfold keyup_display
  split
  · exact ⟨rfl, rfl, rfl⟩
  · split
    · exact ⟨rfl, rfl, rfl⟩
    · split <;> exact ⟨rfl, rfl, rfl⟩

lemma keyup_display_empty (s : CmdState) (h : s.tmphist = []) :
    keyup_display s = s := by
  unfold keyup_display
  rw [if_pos h]

lemma keyup_display_ok (s : CmdState) (p : Int) (hp : s.histpos = some p)
    (h0 : 0 ≤ p) (h1 : p < (s.tmphist.length : Int)) :
    (keyup_display s).crashed = s.crashed ∧
    ∃ e, pyIndex s.tmphist p = some e ∧ (keyup_display s).text = e := by
  have hne : s.tmphist ≠ [] := by
    intro h
    rw [h] at h1
    simp at h1
    omega
  obtain ⟨e, he⟩ := pyIndex_isSome s.tmphist p h0 h1
  unfold keyup_display
  rw [if_neg hne]
  simp only [hp, he]
  exact ⟨rfl, e, rfl, rfl⟩

lemma key_up_handler_none (s : CmdState) (hp : s.histpos = none) :
    key_up_handler s = keyup_display (histbrowse_start s) := by
  unfold key_up_handler
  simp only [hp]

lemma key_up_handler_clamp (s : CmdState) (p : Int) (hp : s.histpos = some p)
    (hle : p ≤ 0) : key_up_handler s = s := by
  unfold key_up_handler
  simp only [hp]
  rw [if_pos hle]

lemma key_up_handler_decr (s : CmdState) (p : Int) (hp : s.histpos = some p)
    (hpos : 0 < p) :
    key_up_handler s = keyup_display { s with histpos := some (p - 1) } := by
  unfold key_up_handler
  simp only [hp]
  rw [if_neg (by omega)]

lemma key_down_handler_none (s : CmdState) (hp : s.histpos = none) :
    key_down_handler s = s := by
  unfold key_down_handler
  simp only [hp]

lemma key_down_handler_edge (s : CmdState) (p : Int) (hp : s.histpos = some p)
    (h : p ≥ (s.tmphist.length : Int) - 1 ∨ s.tmphist = []) :
    key_down_handler s = s := by
  unfold key_down_handler
  simp only [hp]
  rw [if_pos h]

lemma key_down_handler_incr (s : CmdState) (p : Int) (hp : s.histpos = some p)
    (h0 : 0 ≤ p) (h1 : p < (s.tmphist.length : Int) - 1) :
    (key_down_handler s).histpos = some (p + 1) ∧
    (key_down_handler s).tmphist = s.tmphist ∧
    (key_down_handler s).history = s.history ∧
    (key_down_handler s).crashed = s.crashed ∧
    ∃ e, pyIndex s.tmphist (p + 1) = some e ∧ (key_down_handler s).text = e := by
  obtain ⟨e, he⟩ := pyIndex_isSome s.tmphist (p + 1) (by omega) (by omega)
  unfold key_down_handler
  simp only [hp]
  have hcond : ¬(p ≥ (s.tmphist.length : Int) - 1 ∨ s.tmphist = []) := by
    push_neg
    constructor
    · omega
    · intro hnil
      rw [hnil] at h1
      simp at h1
      omega
  rw [if_neg hcond]
  simp only [he]
  exact ⟨rfl, rfl, rfl, rfl, e, rfl, rfl⟩

lemma process_cmdline_histpos (s : CmdState) :
    (process_cmdline s).histpos = none := by
  simp only [process_cmdline, histbrowse_stop]
  rcases hd : s.text.data with _ | ⟨c, cs⟩ <;>
    by_cases ha : shouldAppend s.history s.text = true <;>
      simp [hd, ha]

lemma process_cmdline_history (s : CmdState) :
    (process_cmdline s).history =
      if shouldAppend s.history s.text then s.history ++ [s.text]
      else s.history := by
  simp only [process_cmdline, histbrowse_stop]
  rcases hd : s.text.data with _ | ⟨c, cs⟩ <;>
    by_cases ha : shouldAppend s.history s.text = true <;>
      simp [hd, ha]

lemma process_cmdline_crashed_of_empty (s : CmdState) (h : s.text = "") :
    (process_cmdline s).crashed = true := by
  simp only [process_cmdline, histbrowse_stop]
  have hd : s.text.data = [] := by rw [h]
  by_cases ha : shouldAppend s.history s.text = true <;> simp [hd, ha]

lemma process_cmdline_crashed_of_ne (s : CmdState) (h : s.text ≠ "") :
    (process_cmdline s).crashed = s.crashed := by
  simp only [process_cmdline, histbrowse_stop]
  have hne : s.text.data ≠ [] := fun hd => h (String.ext hd)
  rcases hd : s.text.data with _ | ⟨c, cs⟩
  · exact absurd hd hne
  · by_cases ha : shouldAppend s.history s.text = true <;> simp [hd, ha]

/-! ### The cursor invariant -/

/-- The cursor invariant: whenever the browse cursor is active, it is either
a valid index into `_tmphist`, or `-1` with `_tmphist` empty (the state
`_histbrowse_start` produces from an empty sieve). -/
def Inv (s : CmdState) : Prop :=
  ∀ p, s.histpos = some p →
    (0 ≤ p ∧ p < (s.tmphist.length : Int)) ∨ (p = -1 ∧ s.tmphist = [])

lemma inv_initState : Inv initState := by
  intro p hp
  simp [initState] at hp

lemma inv_of_histpos_none (s : CmdState) (h : s.histpos = none) : Inv s := by
  intro p hp
  rw [h] at hp
  cases hp

lemma inv_histbrowse_start (s : CmdState) : Inv (histbrowse_start s) := by
  intro p hp
  rw [histbrowse_start_histpos] at hp
  cases hp
  rcases htmp : (histbrowse_start s).tmphist with _ | ⟨e, es⟩
  · right
    exact ⟨by simp, rfl⟩
  · left
    have hl : (((e :: es).length : Nat) : Int) = (es.length : Int) + 1 := by simp
    omega

lemma inv_keyup_display (s : CmdState) (h : Inv s) : Inv (keyup_display s) := by
  intro p hp
  obtain ⟨_, ht, hpos⟩ := keyup_display_fields s
  rw [hpos] at hp
  rw [ht]
  exact h p hp

lemma inv_key_up_handler (s : CmdState) (h : Inv s) :
    Inv (key_up_handler s) ∧ (key_up_handler s).crashed = s.crashed := by
  rcases hp : s.histpos with _ | p
  · rw [key_up_handler_none s hp]
    refine ⟨inv_keyup_display _ (inv_histbrowse_start s), ?_⟩
    rcases htmp : (histbrowse_start s).tmphist with _ | ⟨e, es⟩
    · rw [keyup_display_empty _ htmp, histbrowse_start_crashed]
    · have hlen : (0:Int) < ((histbrowse_start s).tmphist.length : Int) := by
        rw [htmp]; simp
      obtain ⟨hc, -⟩ := keyup_display_ok (histbrowse_start s)
        (((histbrowse_start s).tmphist.length : Int) - 1)
        (histbrowse_start_histpos s) (by omega) (by omega)
      rw [hc, histbrowse_start_crashed]
  · rcases h p hp with ⟨h0, h1⟩ | ⟨hm1, htmp⟩
    · by_cases hz : p ≤ 0
      · rw [key_up_handler_clamp s p hp hz]
        exact ⟨h, rfl⟩
      · rw [key_up_handler_decr s p hp (by omega)]
        have hinv' : Inv { s with histpos := some (p - 1) } := by
          intro q hq
          have hq' : some (p - 1) = some q := hq
          cases hq'
          left
          have ht : ({ s with histpos := some (p - 1) } : CmdState).tmphist
              = s.tmphist := rfl
          rw [ht]
          constructor <;> omega
        refine ⟨inv_keyup_display _ hinv', ?_⟩
        obtain ⟨hc, -⟩ := keyup_display_ok { s with histpos := some (p - 1) }
          (p - 1) rfl (by omega) (by simp; omega)
        rw [hc]
    · rw [key_up_handler_clamp s p hp (by omega)]
      exact ⟨h, rfl⟩

lemma inv_key_down_handler (s : CmdState) (h : Inv s) :
    Inv (key_down_handler s) ∧ (key_down_handler s).crashed = s.crashed := by
  rcases hp : s.histpos with _ | p
  · rw [key_down_handler_none s hp]
    exact ⟨h, rfl⟩
  · by_cases hedge : p ≥ (s.tmphist.length : Int) - 1 ∨ s.tmphist = []
    · rw [key_down_handler_edge s p hp hedge]
      exact ⟨h, rfl⟩
    · push_neg at hedge
      obtain ⟨hlt, hne⟩ := hedge
      have h0 : 0 ≤ p := by
        rcases h p hp with ⟨h0, -⟩ | ⟨-, htmp⟩
        · exact h0
        · exact absurd htmp hne
      obtain ⟨hpos, htmp, -, hc, -⟩ :=
        key_down_handler_incr s p hp h0 (by omega)
      refine ⟨?_, hc⟩
      intro q hq
      rw [hpos] at hq
      cases hq
      rw [htmp]
      left
      constructor <;> omega

lemma inv_applyOp (s : CmdState) (op : Op) (h : Inv s) : Inv (applyOp s op) := by
  unfold applyOp
  split
  · exact h
  · cases op with
    | edit t => exact inv_of_histpos_none _ rfl
    | ret => exact inv_of_histpos_none _ (process_cmdline_histpos s)
    | keyUp => exact (inv_key_up_handler s h).1
    | keyDown => exact (inv_key_down_handler s h).1
    | stop => exact inv_of_histpos_none _ rfl

lemma foldl_preserve (P : CmdState → Prop)
    (hstep : ∀ s op, P s → P (applyOp s op)) :
    ∀ (ops : List Op) (s : CmdState), P s → P (ops.foldl applyOp s) := by
  intro ops
  induction ops with
  | nil => exact fun s h => h
  | cons op ops ih => exact fun s h => ih (applyOp s op) (hstep s op h)

lemma reaches_inv (s : CmdState) (h : Reaches s) : Inv s := by
  obtain ⟨ops, rfl⟩ := h
  exact foldl_preserve Inv inv_applyOp ops initState inv_initState

/-! ### The history invariant -/

lemma chain_ne_append (l : List String) (t : String)
    (hc : List.Chain' (· ≠ ·) l) (h : shouldAppend l t = true) :
    List.Chain' (· ≠ ·) (l ++ [t]) := by
  rw [List.chain'_append]
  refine ⟨hc, List.chain'_singleton t, ?_⟩
  intro x hx y hy
  simp at hy
  subst hy
  unfold shouldAppend at h
  rw [hx] at h
  simp at h
  exact fun hxt => h hxt.symm

lemma key_up_handler_history (s : CmdState) :
    (key_up_handler s).history = s.history := by
  unfold key_up_handler
  split
  · rw [(keyup_display_fields _).1, histbrowse_start_history]
  · split
    · rfl
    · rw [(keyup_display_fields _).1]

lemma key_down_handler_history (s : CmdState) :
    (key_down_handler s).history = s.history := by
  unfold key_down_handler
  split
  · rfl
  · split
    · rfl
    · split <;> rfl

lemma chain_applyOp (s : CmdState) (op : Op)
    (h : List.Chain' (· ≠ ·) s.history) :
    List.Chain' (· ≠ ·) (applyOp s op).history := by
  unfold applyOp
  split
  · exact h
  · cases op with
    | edit t => exact h
    | ret =>
      rw [process_cmdline_history]
      split
      · exact chain_ne_append _ _ h (by assumption)
      · exact h
    | keyUp => rw [key_up_handler_history]; exact h
    | keyDown => rw [key_down_handler_history]; exact h
    | stop => exact h

lemma reaches_chain (s : CmdState) (h : Reaches s) :
    List.Chain' (· ≠ ·) s.history := by
  obtain ⟨ops, rfl⟩ := h
  refine foldl_preserve (fun s => List.Chain' (· ≠ ·) s.history)
    chain_applyOp ops initState ?_
  simp [initState]

lemma shouldAppend_iff (h : List String) (t : String) :
    shouldAppend h t = true ↔ (h = [] ∨ h.getLast? ≠ some t) := by
  unfold shouldAppend
  rcases hl : h.getLast? with _ | l
  · simp
  · have hne : h ≠ [] := by
      intro hh
      rw [hh] at hl
      cases hl
    simp [hne, bne_iff_ne]
    exact ⟨fun h1 h2 => h1 h2.symm, fun h1 h2 => h1 h2.symm⟩

lemma key_down_handler_tmphist (s : CmdState) :
    (key_down_handler s).tmphist = s.tmphist := by
  unfold key_down_handler
  split
  · rfl
  · split
    · rfl
    · split <;> rfl

lemma key_up_iterate_inv (s : CmdState) (hinv : Inv s) :
    ∀ n : Nat, Inv (key_up_handler^[n] s) := by
  intro n
  induction n with
  | zero => simpa using hinv
  | succ n ih =>
    rw [Function.iterate_succ_apply']
    exact (inv_key_up_handler _ ih).1

lemma key_down_iterate_bound (s : CmdState) (hinv : Inv s) :
    ∀ (n : Nat) (q : Int), (key_down_handler^[n] s).histpos = some q →
      q ≤ (s.tmphist.length : Int) - 1 := by
  intro n
  induction n generalizing s with
  | zero =>
    intro q hq
    rw [Function.iterate_zero_apply] at hq
    rcases hinv q hq with ⟨-, h⟩ | ⟨hq1, -⟩
    · omega
    · omega
  | succ n ih =>
    intro q hq
    rw [Function.iterate_succ_apply] at hq
    have h2 := ih (key_down_handler s) (inv_key_down_handler s hinv).1 q hq
    rw [key_down_handler_tmphist] at h2
    exact h2

/-! ### Theorems -/

/-- C8: for every set of permitted start characters, every input string and
every cursor position, `validate` returns `Acceptable` exactly when the
string starts with one of the permitted start characters and `Invalid`
otherwise, and returns the string and the position unchanged in both
cases. -/
theorem validate_binary_classification
    (startchars : List String) (string : String) (pos : Nat) :
    ((validate startchars string pos).1 = QValidatorState.Acceptable ↔
      ∃ c ∈ startchars, pyStartsWith string c = true) ∧
    ((validate startchars string pos).1 = QValidatorState.Invalid ↔
      ¬ ∃ c ∈ startchars, pyStartsWith string c = true) ∧
    (validate startchars string pos).2.1 = string ∧
    (validate startchars string pos).2.2 = pos := by
  unfold validate
  by_cases h : (startchars.any fun c => pyStartsWith string c) = true
  · rw [if_pos h]
    rw [List.any_eq_true] at h
    exact ⟨by simp [h], by simp [h], rfl, rfl⟩
  · rw [if_neg h]
    rw [List.any_eq_true] at h
    exact ⟨by simp [h], by simp [h], rfl, rfl⟩

/-- C1: for every sequence of user events feeding `process_cmdline`, the
history log never contains two consecutive equal entries; and a submitted
entry is appended to the log if and only if the log is empty or its last
element differs from the entry (otherwise the log is unchanged). -/
theorem history_no_consecutive_duplicates :
    (∀ ops : List Op, List.Chain' (· ≠ ·) (runOps ops).history) ∧
    (∀ s : CmdState,
      ((process_cmdline s).history = s.history ++ [s.text] ↔
        (s.history = [] ∨ s.history.getLast? ≠ some s.text)) ∧
      (s.history.getLast? = some s.text →
        (process_cmdline s).history = s.history)) := by
  constructor
  · intro ops
    exact reaches_chain (runOps ops) ⟨ops, rfl⟩
  · intro s
    constructor
    · rw [process_cmdline_history]
      by_cases hsa : shouldAppend s.history s.text = true
      · rw [if_pos hsa]
        simp [(shouldAppend_iff s.history s.text).mp hsa]
      · rw [if_neg hsa]
        rw [shouldAppend_iff] at hsa
        simp [hsa]
    · intro hls
      have hno : ¬ (shouldAppend s.history s.text = true) := by
        rw [shouldAppend_iff]
        push_neg
        refine ⟨?_, hls⟩
        intro hh
        rw [hh] at hls
        cases hls
      rw [process_cmdline_history, if_neg hno]

/-- C1 witness: with history `["a"]` and submitted text `"a"` (equal to the
last entry), the entry is not appended. -/
theorem history_no_consecutive_duplicates_witness :
    (process_cmdline (CmdState.mk ["a"] [] none "a" false)).history = ["a"] :=
  (history_no_consecutive_duplicates.2 (CmdState.mk ["a"] [] none "a" false)).2
    (by decide)

/-- C2: `_histbrowse_start` builds `_tmphist` as the spec's `filtered` (the
log entries starting with the trimmed input when that is non-empty, the
whole log otherwise) and sets the cursor to its last index; in particular,
after recording `["a","b","c"]`, browsing from input `""` yields
`["a","b","c"]` at position 2 and browsing from input `"b"` yields `["b"]`
at position 0 (from which both step operations are no-ops). -/
theorem histbrowse_start_spec :
    (∀ s : CmdState, specFiltered s.history s.text ≠ [] →
      (histbrowse_start s).tmphist = specFiltered s.history s.text ∧
      (histbrowse_start s).histpos =
        some (((specFiltered s.history s.text).length : Int) - 1)) ∧
    ((histbrowse_start (runOps [Op.edit "a", Op.ret, Op.edit "b", Op.ret,
        Op.edit "c", Op.ret])).tmphist = ["a", "b", "c"] ∧
      (histbrowse_start (runOps [Op.edit "a", Op.ret, Op.edit "b", Op.ret,
        Op.edit "c", Op.ret])).histpos = some 2) ∧
    ((histbrowse_start (runOps [Op.edit "a", Op.ret, Op.edit "b", Op.ret,
        Op.edit "c", Op.ret, Op.edit "b"])).tmphist = ["b"] ∧
      (histbrowse_start (runOps [Op.edit "a", Op.ret, Op.edit "b", Op.ret,
        Op.edit "c", Op.ret, Op.edit "b"])).histpos = some 0 ∧
      key_up_handler (histbrowse_start (runOps [Op.edit "a", Op.ret,
        Op.edit "b", Op.ret, Op.edit "c", Op.ret, Op.edit "b"])) =
        histbrowse_start (runOps [Op.edit "a", Op.ret, Op.edit "b", Op.ret,
          Op.edit "c", Op.ret, Op.edit "b"]) ∧
      key_down_handler (histbrowse_start (runOps [Op.edit "a", Op.ret,
        Op.edit "b", Op.ret, Op.edit "c", Op.ret, Op.edit "b"])) =
        histbrowse_start (runOps [Op.edit "a", Op.ret, Op.edit "b", Op.ret,
          Op.edit "c", Op.ret, Op.edit "b"])) := by
  refine ⟨?_, by decide, by decide⟩
  intro s hne
  refine ⟨histbrowse_start_tmphist s, ?_⟩
  rw [histbrowse_start_histpos, histbrowse_start_tmphist]

/-- C2 witness: the general clause applied to history `["x"]` with empty
input. -/
theorem histbrowse_start_spec_witness :
    specFiltered ["x"] "" ≠ [] ∧
    (histbrowse_start (CmdState.mk ["x"] [] none "" false)).tmphist =
      specFiltered ["x"] "" :=
  ⟨by decide,
   (histbrowse_start_spec.1 (CmdState.mk ["x"] [] none "" false) (by decide)).1⟩

/-- C3 counterexample: at the reachable inactive state after submitting
`"a"`, the Down-key handler leaves the cursor inactive, whereas
`_histbrowse_start` would have set it to position 0 — so `step_forward`
while inactive does not auto-invoke `start_browsing`, refuting the claim
for the Down-key handler. -/
theorem key_down_inactive_no_autostart :
    (runOps [Op.edit "a", Op.ret]).histpos = none ∧
    (key_down_handler (runOps [Op.edit "a", Op.ret])).histpos = none ∧
    (histbrowse_start (runOps [Op.edit "a", Op.ret])).histpos = some 0 := by
  decide

/-- C3 amended: while the cursor is inactive, `step_back` (the Up-key
handler) auto-invokes `start_browsing` seeded from the current input text —
in particular `stop_browsing` followed by `step_back` rebuilds the filtered
list from the current input text rather than reusing the previous one — but
`step_forward` (the Down-key handler) while inactive is a no-op and does not
start browsing. -/
theorem inactive_step_reseed (s : CmdState) :
    (s.histpos = none →
      (key_up_handler s).tmphist = specFiltered s.history s.text ∧
      (key_up_handler s).histpos =
        some (((specFiltered s.history s.text).length : Int) - 1) ∧
      key_down_handler s = s) ∧
    (key_up_handler (histbrowse_stop s)).tmphist =
      specFiltered s.history s.text ∧
    key_down_handler (histbrowse_stop s) = histbrowse_stop s := by
  have core : ∀ t : CmdState, t.histpos = none →
      (key_up_handler t).tmphist = specFiltered t.history t.text ∧
      (key_up_handler t).histpos =
        some (((specFiltered t.history t.text).length : Int) - 1) ∧
      key_down_handler t = t := by
    intro t hp
    rw [key_up_handler_none t hp, key_down_handler_none t hp]
    obtain ⟨-, ht, hposf⟩ := keyup_display_fields (histbrowse_start t)
    refine ⟨?_, ?_, rfl⟩
    · rw [ht, histbrowse_start_tmphist]
    · rw [hposf, histbrowse_start_histpos, histbrowse_start_tmphist]
  refine ⟨core s, ?_, ?_⟩
  · exact (core (histbrowse_stop s) rfl).1
  · exact (core (histbrowse_stop s) rfl).2.2

/-- C3 witness: the amended claim at the reachable inactive state after
submitting `"a"`. -/
theorem inactive_step_reseed_witness :
    (key_up_handler (runOps [Op.edit "a", Op.ret])).tmphist = ["a"] ∧
    key_down_handler (runOps [Op.edit "a", Op.ret]) =
      runOps [Op.edit "a", Op.ret] := by
  obtain ⟨h1, -, -⟩ := inactive_step_reseed (runOps [Op.edit "a", Op.ret])
  obtain ⟨ht, -, hd⟩ := h1 (by decide)
  exact ⟨by rw [ht]; decide, hd⟩

/-- C4 counterexample: with an empty history (so the filtered list is
empty), `_histbrowse_start` is not a no-op: it changes the state and sets
the cursor to the numeric index `-1` instead of leaving it inactive. -/
theorem histbrowse_start_empty_not_noop :
    (histbrowse_start initState).histpos = some (-1) ∧
    initState.histpos = none ∧
    histbrowse_start initState ≠ initState := by
  decide

/-- C4 amended: when the filtered list would be empty, `_histbrowse_start`
sets `_histpos` to the numeric value `-1` and `_tmphist` to `[]` (so the
state is mutated and the cursor is not left inactive), but nothing is
displayed (the text is unchanged) and both step operations are strict
no-ops on the resulting state. -/
theorem histbrowse_start_empty_filtered (s : CmdState)
    (h : specFiltered s.history s.text = []) :
    (histbrowse_start s).histpos = some (-1) ∧
    (histbrowse_start s).tmphist = [] ∧
    (histbrowse_start s).text = s.text ∧
    key_up_handler (histbrowse_start s) = histbrowse_start s ∧
    key_down_handler (histbrowse_start s) = histbrowse_start s := by
  have ht : (histbrowse_start s).tmphist = [] := by
    rw [histbrowse_start_tmphist, h]
  have hpos : (histbrowse_start s).histpos = some (-1) := by
    rw [histbrowse_start_histpos, ht]
    simp
  refine ⟨hpos, ht, histbrowse_start_text s, ?_, ?_⟩
  · exact key_up_handler_clamp _ (-1) hpos (by omega)
  · exact key_down_handler_edge _ (-1) hpos (Or.inr ht)

/-- C4 witness: the amended claim at the initial (empty-history) state. -/
theorem histbrowse_start_empty_filtered_witness :
    (histbrowse_start initState).histpos = some (-1) ∧
    key_up_handler (histbrowse_start initState) = histbrowse_start initState := by
  have h := histbrowse_start_empty_filtered initState (by decide)
  exact ⟨h.1, h.2.2.2.1⟩

/-- C5 counterexample: the state after editing `"a"`, submitting it, editing
`"b"` and pressing Up is reachable and uncrashed with an active cursor at
the numeric position `-1` — below 0 — and `step_back` there, although the
position is not 0, does not decrement-and-display: it leaves the state
unchanged.  This refutes the claim as stated over every reachable state. -/
theorem key_up_at_negative_one_clamps :
    (runOps [Op.edit "a", Op.ret, Op.edit "b", Op.keyUp]).histpos = some (-1) ∧
    (runOps [Op.edit "a", Op.ret, Op.edit "b", Op.keyUp]).crashed = false ∧
    ¬ (0 : Int) ≤ -1 ∧
    key_up_handler (runOps [Op.edit "a", Op.ret, Op.edit "b", Op.keyUp]) =
      runOps [Op.edit "a", Op.ret, Op.edit "b", Op.keyUp] := by
  decide

/-- C5 amended: at every reachable uncrashed state with an active cursor,
the position is at least `-1`, and at least 0 whenever the filtered list is
non-empty; when the position is at most 0 (position 0, or the `-1` of an
empty filtered list), `step_back` is a clamped no-op that neither wraps
around nor deactivates the cursor; when the position is at least 1, it
decrements the position by 1 — to a value still at least 0, so a step never
moves the position below 0 — and displays the filtered entry at the new
position; and under every sequence of `step_back` calls the position stays
at least `-1`, and at least 0 whenever the filtered list is non-empty. -/
theorem key_up_clamped_at_floor (s : CmdState) (p : Int)
    (hr : Reaches s) (hc : s.crashed = false) (hp : s.histpos = some p) :
    -1 ≤ p ∧
    (s.tmphist ≠ [] → 0 ≤ p) ∧
    (p ≤ 0 → key_up_handler s = s) ∧
    (0 < p →
      (key_up_handler s).histpos = some (p - 1) ∧ 0 ≤ p - 1 ∧
      (key_up_handler s).tmphist = s.tmphist ∧
      (key_up_handler s).crashed = false ∧
      ∃ e, pyIndex s.tmphist (p - 1) = some e ∧ (key_up_handler s).text = e) ∧
    (∀ (n : Nat) (q : Int), (key_up_handler^[n] s).histpos = some q →
      -1 ≤ q ∧ ((key_up_handler^[n] s).tmphist ≠ [] → 0 ≤ q)) := by
  have hinv := reaches_inv s hr
  refine ⟨?_, ?_, ?_, ?_, ?_⟩
  · rcases hinv p hp with ⟨h0, -⟩ | ⟨hm, -⟩ <;> omega
  · intro hne
    rcases hinv p hp with ⟨h0, -⟩ | ⟨-, htmp⟩
    · exact h0
    · exact absurd htmp hne
  · intro hz
    exact key_up_handler_clamp s p hp hz
  · intro hpos
    have hlt : p < (s.tmphist.length : Int) := by
      rcases hinv p hp with ⟨-, hlt⟩ | ⟨hm, -⟩
      · exact hlt
      · omega
    rw [key_up_handler_decr s p hp hpos]
    have hts : ({ s with histpos := some (p - 1) } : CmdState).tmphist
        = s.tmphist := rfl
    obtain ⟨-, ht, hposf⟩ := keyup_display_fields { s with histpos := some (p - 1) }
    obtain ⟨hcr, e, he, hte⟩ := keyup_display_ok { s with histpos := some (p - 1) }
      (p - 1) rfl (by omega) (by rw [hts]; omega)
    refine ⟨by rw [hposf], by omega, by rw [ht, hts], ?_, e, ?_, hte⟩
    · rw [hcr]
      exact hc
    · rw [hts] at he
      exact he
  · intro n q hq
    rcases key_up_iterate_inv s hinv n q hq with ⟨h0, -⟩ | ⟨hm, htmp⟩
    · exact ⟨by omega, fun _ => h0⟩
    · exact ⟨by omega, fun hne => absurd htmp hne⟩

/-- C5 witness: at the reachable session with history `["a"]`, filtered
`["a"]` and position 0, `step_back` is a clamped no-op. -/
theorem key_up_clamped_at_floor_witness :
    key_up_handler (runOps [Op.edit "a", Op.ret, Op.edit "", Op.keyUp]) =
      runOps [Op.edit "a", Op.ret, Op.edit "", Op.keyUp] := by
  have h := key_up_clamped_at_floor
    (runOps [Op.edit "a", Op.ret, Op.edit "", Op.keyUp]) 0
    ⟨[Op.edit "a", Op.ret, Op.edit "", Op.keyUp], rfl⟩
    (by decide) (by decide)
  exact h.2.2.1 (by decide)

/-- C6: at every reachable uncrashed state with an active cursor, the
position is at most `len(filtered) - 1`; `step_forward` at position
`len(filtered) - 1` is a no-op; otherwise it increments the position by 1
and displays the filtered entry at the new position; and no sequence of
`step_forward` calls ever drives the position past `len(filtered) - 1`. -/
theorem key_down_never_past_end (s : CmdState) (p : Int)
    (hr : Reaches s) (hc : s.crashed = false) (hp : s.histpos = some p) :
    p ≤ (s.tmphist.length : Int) - 1 ∧
    (p = (s.tmphist.length : Int) - 1 → key_down_handler s = s) ∧
    (p ≠ (s.tmphist.length : Int) - 1 →
      (key_down_handler s).histpos = some (p + 1) ∧
      (key_down_handler s).tmphist = s.tmphist ∧
      (key_down_handler s).crashed = false ∧
      ∃ e, pyIndex s.tmphist (p + 1) = some e ∧ (key_down_handler s).text = e) ∧
    (∀ (n : Nat) (q : Int), (key_down_handler^[n] s).histpos = some q →
      q ≤ (s.tmphist.length : Int) - 1) := by
  have hinv := reaches_inv s hr
  refine ⟨?_, ?_, ?_, key_down_iterate_bound s hinv⟩
  · rcases hinv p hp with ⟨-, hlt⟩ | ⟨hm, htmp⟩
    · omega
    · have hl0 : ((s.tmphist.length : Nat) : Int) = 0 := by rw [htmp]; simp
      omega
  · intro hedge
    exact key_down_handler_edge s p hp (Or.inl (by omega))
  · intro hnz
    have hb : 0 ≤ p ∧ p < (s.tmphist.length : Int) := by
      rcases hinv p hp with hb | ⟨hm, htmp⟩
      · exact hb
      · exfalso
        have hl0 : ((s.tmphist.length : Nat) : Int) = 0 := by rw [htmp]; simp
        omega
    obtain ⟨h0, hlt⟩ := hb
    have hle : p ≤ (s.tmphist.length : Int) - 1 := by omega
    obtain ⟨hpos, ht, -, hcr, e, he, hte⟩ :=
      key_down_handler_incr s p hp h0 (by omega)
    refine ⟨hpos, ht, ?_, e, he, hte⟩
    rw [hcr]
    exact hc

/-- C6 witness: at the reachable session with filtered `["a"]` and position
0 (the last index), `step_forward` is a no-op. -/
theorem key_down_never_past_end_witness :
    key_down_handler (runOps [Op.edit "a", Op.ret, Op.edit "", Op.keyUp]) =
      runOps [Op.edit "a", Op.ret, Op.edit "", Op.keyUp] := by
  have h := key_down_never_past_end
    (runOps [Op.edit "a", Op.ret, Op.edit "", Op.keyUp]) 0
    ⟨[Op.edit "a", Op.ret, Op.edit "", Op.keyUp], rfl⟩
    (by decide) (by decide)
  exact h.2.1 (by decide)

/-- C7 counterexample: on a boundary condition (history `["a"]`, input
`"b"`, so the filtered list is empty), `_histbrowse_start` is not a no-op —
it mutates the state — refuting the claim that every browsing operation is
a no-op on boundary conditions. -/
theorem histbrowse_start_boundary_not_noop :
    specFiltered ["a"] "b" = [] ∧
    histbrowse_start (CmdState.mk ["a"] [] none "b" false) ≠
      CmdState.mk ["a"] [] none "b" false := by
  decide

/-- C7 amended: every browsing operation is total and, on every reachable
state, never raises: no list access it performs is out of bounds (the crash
flag is preserved by all four operations); the step operations are strict
no-ops at the cursor edges; and `_histbrowse_start` on an empty filtered
list displays nothing — though it does mutate the cursor fields. -/
theorem browsing_ops_never_fail (s : CmdState) (hr : Reaches s) :
    (key_up_handler s).crashed = s.crashed ∧
    (key_down_handler s).crashed = s.crashed ∧
    (histbrowse_start s).crashed = s.crashed ∧
    (histbrowse_stop s).crashed = s.crashed ∧
    (∀ p, s.histpos = some p → p ≤ 0 → key_up_handler s = s) ∧
    (∀ p, s.histpos = some p → (s.tmphist.length : Int) - 1 ≤ p →
      key_down_handler s = s) ∧
    (specFiltered s.history s.text = [] →
      (histbrowse_start s).text = s.text) := by
  have hinv := reaches_inv s hr
  refine ⟨(inv_key_up_handler s hinv).2, (inv_key_down_handler s hinv).2,
    histbrowse_start_crashed s, rfl, ?_, ?_, ?_⟩
  · exact fun p hp hle => key_up_handler_clamp s p hp hle
  · exact fun p hp hge => key_down_handler_edge s p hp (Or.inl (by omega))
  · exact fun _ => histbrowse_start_text s

/-- C7 witness: at the reachable session with filtered `["a"]` and position
0, the Up-key handler preserves the crash flag and is a no-op at the
edge. -/
theorem browsing_ops_never_fail_witness :
    (key_up_handler (runOps [Op.edit "a", Op.ret, Op.edit "", Op.keyUp])).crashed
      = (runOps [Op.edit "a", Op.ret, Op.edit "", Op.keyUp]).crashed ∧
    key_up_handler (runOps [Op.edit "a", Op.ret, Op.edit "", Op.keyUp]) =
      runOps [Op.edit "a", Op.ret, Op.edit "", Op.keyUp] := by
  have h := browsing_ops_never_fail
    (runOps [Op.edit "a", Op.ret, Op.edit "", Op.keyUp])
    ⟨[Op.edit "a", Op.ret, Op.edit "", Op.keyUp], rfl⟩
  exact ⟨h.1, h.2.2.2.2.1 0 (by decide) (by decide)⟩

/-- C9: submitting an empty input via `process_cmdline` is not total: the
run crashes (the `text[0]` access raises `IndexError`), and — when the log
is empty or its last entry is non-empty — the empty string has first been
appended to the history log. -/
theorem process_cmdline_empty_input (s : CmdState) (h : s.text = "") :
    (process_cmdline s).crashed = true ∧
    (s.history = [] ∨ s.history.getLast? ≠ some "" →
      (process_cmdline s).history = s.history ++ [""]) := by
  refine ⟨process_cmdline_crashed_of_empty s h, ?_⟩
  intro hcond
  rw [process_cmdline_history, h, if_pos ?_]
  rw [shouldAppend_iff]
  exact hcond

/-- C9 witness: submitting the empty string from the initial state crashes
and appends `""` to the log. -/
theorem process_cmdline_empty_input_witness :
    (process_cmdline initState).crashed = true ∧
    (process_cmdline initState).history = initState.history ++ [""] :=
  ⟨(process_cmdline_empty_input initState rfl).1,
   (process_cmdline_empty_input initState rfl).2 (Or.inl rfl)⟩

/-- C10: `set_error` followed by `clear_error` restores the displayed text:
for every widget state and every error message, the round trip brings the
displayed text back to its original value. -/
theorem set_error_clear_error_roundtrip (w : TextWidget) (m : String) :
    (clear_error (set_error w m)).text = w.text := by
  simp [set_error, clear_error]

end Statusbar
